import Mathlib

set_option linter.unusedVariables false

namespace Labtasker

/-- JSON-like values stored in Mongo documents (labtasker stores queues, tasks and
workers as such documents). Float literals are kept as their decimal source text;
no arithmetic is ever performed on them in the modelled code paths. -/
inductive Value where
  | null : Value
  | str : String → Value
  | int : Int → Value
  | float : String → Value
  | obj : List (String × Value) → Value
deriving Repr

mutual

def Value.beq : Value → Value → Bool
  | .null, .null => true
  | .str a, .str b => a == b
  | .int a, .int b => a == b
  | .float a, .float b => a == b
  | .obj a, .obj b => Value.beqFields a b
  | _, _ => false

def Value.beqFields : List (String × Value) → List (String × Value) → Bool
  | [], [] => true
  | (k1, v1) :: r1, (k2, v2) :: r2 => k1 == k2 && Value.beq v1 v2 && Value.beqFields r1 r2
  | _, _ => false

end

instance : BEq Value := ⟨Value.beq⟩

/-- Python dict lookup `d[k]` on an association list (first binding wins;
Python dicts have unique keys, which all modelled call sites respect). -/
def lookupVal (d : List (String × Value)) (k : String) : Option Value :=
  (d.find? (fun kv => kv.1 == k)).map (fun kv => kv.2)

/-- Python dict assignment `d[k] = v`: replaces the value at an existing key in
place, otherwise appends the new binding. -/
def dictInsert (d : List (String × Value)) (k : String) (v : Value) : List (String × Value) :=
  if d.any (fun kv => kv.1 == k) then
    d.map (fun kv => if kv.1 == k then (k, v) else kv)
  else d ++ [(k, v)]

/-- Python dict merge `\x7b**base, **extra\x7d`: keys of `extra` override `base`. -/
def dictMerge (base extra : List (String × Value)) : List (String × Value) :=
  extra.foldl (fun d kv => dictInsert d kv.1 kv.2) base

/-- Task states from fsm.TaskState, as used by database.py. -/
inductive TaskState where
  | pending | running | success | failed | cancelled
deriving DecidableEq, BEq, Repr

/-- String form of a task state as persisted in the store. -/
def TaskState.toStr : TaskState → String
  | .pending => "pending"
  | .running => "running"
  | .success => "success"
  | .failed => "failed"
  | .cancelled => "cancelled"

/-- Worker states from fsm.WorkerState, as used by database.py. -/
inductive WorkerState where
  | active | suspended | failed
deriving DecidableEq, BEq, Repr

/-- Task document, with exactly the fields `DatabaseClient.create_task` writes.
Instants (`created_at`, `start_time`, ...) are milliseconds-since-epoch integers,
matching Mongo's date arithmetic in `handle_timeouts`; the `*_timeout` fields are
durations in seconds. -/
structure Task where
  _id : String
  queue_id : String
  status : TaskState
  task_name : Option String
  created_at : Int
  start_time : Option Int
  last_heartbeat : Option Int
  last_modified : Int
  heartbeat_timeout : Option Int
  task_timeout : Option Int
  max_retries : Int
  retries : Int
  priority : Int
  metadata : List (String × Value)
  args : List (String × Value)
  summary : List (String × Value)
  worker_id : Option String
deriving Repr

/-- Queue document, with the fields `DatabaseClient.create_queue` writes.
`metadata` is an Option because `update_queue` can persist a Python `None`
in that slot (see the C4 analysis below). -/
structure Queue where
  _id : String
  queue_name : String
  password : String
  created_at : Int
  last_modified : Int
  metadata : Option (List (String × Value))
deriving Repr

/-- Worker document, with the fields `DatabaseClient.create_worker` writes. -/
structure Worker where
  _id : String
  queue_id : String
  status : WorkerState
  worker_name : Option String
  metadata : List (String × Value)
  retries : Int
  max_retries : Int
  created_at : Int
  last_modified : Int
deriving Repr

/-- The three collections managed by `DatabaseClient`. -/
structure DB where
  queues : List Queue
  tasks : List Task
  workers : List Worker
deriving Repr

/-- Structural equality of task documents (used to model Mongo's
`modified_count`, which counts documents whose content actually changed). -/
def Task.beq (a b : Task) : Bool :=
  a._id == b._id && a.queue_id == b.queue_id && a.status == b.status &&
  a.task_name == b.task_name && a.created_at == b.created_at &&
  a.start_time == b.start_time && a.last_heartbeat == b.last_heartbeat &&
  a.last_modified == b.last_modified && a.heartbeat_timeout == b.heartbeat_timeout &&
  a.task_timeout == b.task_timeout && a.max_retries == b.max_retries &&
  a.retries == b.retries && a.priority == b.priority &&
  Value.beqFields a.metadata b.metadata && Value.beqFields a.args b.args &&
  Value.beqFields a.summary b.summary && a.worker_id == b.worker_id

/-- Structural equality of queue documents. -/
def Queue.beq (a b : Queue) : Bool :=
  a._id == b._id && a.queue_name == b.queue_name && a.password == b.password &&
  a.created_at == b.created_at && a.last_modified == b.last_modified &&
  (match a.metadata, b.metadata with
   | none, none => true
   | some x, some y => Value.beqFields x y
   | _, _ => false)

/-- Error kinds surfaced by the service operations as HTTPExceptions.
`keyError` models an uncaught Python KeyError escaping the handler
(it surfaces as an internal server error, not an HTTP 400/404). -/
inductive Err where
  | notFound | badRequest | keyError
deriving DecidableEq, Repr

/-- Mongo update_one: rewrite the first document matching `p` by `f`. -/
def updateFirst {α : Type} (p : α → Bool) (f : α → α) : List α → List α
  | [] => []
  | x :: rest => if p x then f x :: rest else x :: updateFirst p f rest

/-- Whether Mongo update_one would report modified_count greater than zero:
the first document matching `p` exists and `f` actually changes it. -/
def updateFirstModified {α : Type} (p : α → Bool) (f : α → α) (beq : α → α → Bool) : List α → Bool
  | [] => false
  | x :: rest => if p x then !(beq (f x) x) else updateFirstModified p f beq rest

/-- Mongo delete_one: remove the first document matching `p`. -/
def removeFirst {α : Type} (p : α → Bool) : List α → List α
  | [] => []
  | x :: rest => if p x then rest else x :: removeFirst p rest

/-- Field view of a task document, as Mongo sees it for equality filters.
Keys outside the task schema resolve to nothing. -/
def Task.getField (t : Task) (k : String) : Option Value :=
  if k == "_id" then some (.str t._id)
  else if k == "queue_id" then some (.str t.queue_id)
  else if k == "status" then some (.str t.status.toStr)
  else if k == "task_name" then some (match t.task_name with | some s => .str s | none => .null)
  else if k == "created_at" then some (.int t.created_at)
  else if k == "start_time" then some (match t.start_time with | some n => .int n | none => .null)
  else if k == "last_heartbeat" then some (match t.last_heartbeat with | some n => .int n | none => .null)
  else if k == "last_modified" then some (.int t.last_modified)
  else if k == "heartbeat_timeout" then some (match t.heartbeat_timeout with | some n => .int n | none => .null)
  else if k == "task_timeout" then some (match t.task_timeout with | some n => .int n | none => .null)
  else if k == "max_retries" then some (.int t.max_retries)
  else if k == "retries" then some (.int t.retries)
  else if k == "priority" then some (.int t.priority)
  else if k == "metadata" then some (.obj t.metadata)
  else if k == "args" then some (.obj t.args)
  else if k == "summary" then some (.obj t.summary)
  else if k == "worker_id" then some (match t.worker_id with | some s => .str s | none => .null)
  else none

/-- Equality-filter matching: a task matches a filter document when every
binding of the filter equals the corresponding task field. This is the Mongo
semantics for the flat equality filters the modelled code paths construct. -/
def matchesFilter (t : Task) (q : List (String × Value)) : Bool :=
  q.all (fun kv => match Task.getField t kv.1 with
    | some v => Value.beq v kv.2
    | none => false)

/-- Mongo dotted-path assignment inside a sub-document: sets the value at the
path, creating intermediate documents as Mongo does. -/
def setPath (d : List (String × Value)) : List String → Value → List (String × Value)
  | [], _ => d
  | [k], v => dictInsert d k v
  | k :: rest, v =>
    let sub := match lookupVal d k with
      | some (.obj fs) => fs
      | _ => []
    dictInsert d k (.obj (setPath sub rest v))

/-- Mongo `$set` of the status field: only a persisted state string changes
the typed schema's status slot. -/
def Task.setStatusVal (t : Task) (v : Value) : Task :=
  match v with
  | .str s =>
    if s == TaskState.toStr .pending then { t with status := .pending }
    else if s == TaskState.toStr .running then { t with status := .running }
    else if s == TaskState.toStr .success then { t with status := .success }
    else if s == TaskState.toStr .failed then { t with status := .failed }
    else if s == TaskState.toStr .cancelled then { t with status := .cancelled }
    else t
  | _ => t

/-- Mongo `$set` of the retries field. -/
def Task.setRetriesVal (t : Task) (v : Value) : Task :=
  match v with | .int n => { t with retries := n } | _ => t

/-- Mongo `$set` of the last_modified field. -/
def Task.setLastModifiedVal (t : Task) (v : Value) : Task :=
  match v with | .int n => { t with last_modified := n } | _ => t

/-- Mongo `$set` of the worker_id field. -/
def Task.setWorkerIdVal (t : Task) (v : Value) : Task :=
  match v with
  | .null => { t with worker_id := none }
  | .str s => { t with worker_id := some s }
  | _ => t

/-- Mongo `$set` of the start_time field. -/
def Task.setStartTimeVal (t : Task) (v : Value) : Task :=
  match v with
  | .null => { t with start_time := none }
  | .int n => { t with start_time := some n }
  | _ => t

/-- Mongo `$set` of the last_heartbeat field. -/
def Task.setLastHeartbeatVal (t : Task) (v : Value) : Task :=
  match v with
  | .null => { t with last_heartbeat := none }
  | .int n => { t with last_heartbeat := some n }
  | _ => t

/-- Mongo `$set` of the heartbeat_timeout field. -/
def Task.setHeartbeatTimeoutVal (t : Task) (v : Value) : Task :=
  match v with
  | .null => { t with heartbeat_timeout := none }
  | .int n => { t with heartbeat_timeout := some n }
  | _ => t

/-- Mongo `$set` of the task_timeout field. -/
def Task.setTaskTimeoutVal (t : Task) (v : Value) : Task :=
  match v with
  | .null => { t with task_timeout := none }
  | .int n => { t with task_timeout := some n }
  | _ => t

/-- Mongo `$set` of the max_retries field. -/
def Task.setMaxRetriesVal (t : Task) (v : Value) : Task :=
  match v with | .int n => { t with max_retries := n } | _ => t

/-- Mongo `$set` of the priority field. -/
def Task.setPriorityVal (t : Task) (v : Value) : Task :=
  match v with | .int n => { t with priority := n } | _ => t

/-- Mongo `$set` of the task_name field. -/
def Task.setTaskNameVal (t : Task) (v : Value) : Task :=
  match v with
  | .null => { t with task_name := none }
  | .str s => { t with task_name := some s }
  | _ => t

/-- Mongo `$set` of the metadata sub-document. -/
def Task.setMetadataVal (t : Task) (v : Value) : Task :=
  match v with | .obj fs => { t with metadata := fs } | _ => t

/-- Mongo `$set` of the args sub-document. -/
def Task.setArgsVal (t : Task) (v : Value) : Task :=
  match v with | .obj fs => { t with args := fs } | _ => t

/-- Mongo `$set` of the summary sub-document. -/
def Task.setSummaryVal (t : Task) (v : Value) : Task :=
  match v with | .obj fs => { t with summary := fs } | _ => t

/-- Mongo `$set` through a dotted path into one of the three sub-documents. -/
def Task.setDotted (t : Task) (k : String) (v : Value) : Task :=
  match k.splitOn "." with
  | "metadata" :: rest => { t with metadata := setPath t.metadata rest v }
  | "args" :: rest => { t with args := setPath t.args rest v }
  | "summary" :: rest => { t with summary := setPath t.summary rest v }
  | _ => t

/-- Mongo `$set` of one key on a task document, projected onto the typed task
schema. Dotted paths reach into the three sub-documents. Keys outside the
schema and type-mismatched values leave the document unchanged in this model
(no modelled code path produces them). -/
def Task.setField (t : Task) (k : String) (v : Value) : Task :=
  if k == "status" then t.setStatusVal v
  else if k == "retries" then t.setRetriesVal v
  else if k == "last_modified" then t.setLastModifiedVal v
  else if k == "worker_id" then t.setWorkerIdVal v
  else if k == "start_time" then t.setStartTimeVal v
  else if k == "last_heartbeat" then t.setLastHeartbeatVal v
  else if k == "heartbeat_timeout" then t.setHeartbeatTimeoutVal v
  else if k == "task_timeout" then t.setTaskTimeoutVal v
  else if k == "max_retries" then t.setMaxRetriesVal v
  else if k == "priority" then t.setPriorityVal v
  else if k == "task_name" then t.setTaskNameVal v
  else if k == "metadata" then t.setMetadataVal v
  else if k == "args" then t.setArgsVal v
  else if k == "summary" then t.setSummaryVal v
  else t.setDotted k v

/-- Mongo `$set` with a whole set-document, applied binding by binding. -/
def applySet (t : Task) (s : List (String × Value)) : Task :=
  s.foldl (fun acc kv => Task.setField acc kv.1 kv.2) t

/-- Sort key of `fetch_task`: `a` sorts strictly before `b` under
`priority DESC, created_at ASC`. -/
def betterTask (a b : Task) : Bool :=
  a.priority > b.priority || (a.priority == b.priority && a.created_at < b.created_at)

/-- Mongo find_one_and_update with sort: locate the document that comes first
under the sort order among those matching `p` (ties keep the earlier document,
the store's deterministic secondary ordering), returned as a decomposition
`before ++ best :: after` of the collection. -/
def findBest (p : Task → Bool) : List Task → Option (List Task × Task × List Task)
  | [] => none
  | t :: rest =>
    match findBest p rest with
    | none => if p t then some ([], t, rest) else none
    | some (pre, b, post) =>
      if p t then
        if betterTask b t then some (t :: pre, b, post) else some ([], t, rest)
      else some (t :: pre, b, post)

/-- Modelled from the spec: `labtasker.security.hash_password` lives in the
security module, which is not in src; the spec's security contract only demands
`hash_password(plain) = hash`. A computable stand-in tag suffices for the claims. -/
def hash_password (plain : String) : String :=
  "hashed:" ++ plain

/-- Modelled from the spec: `labtasker.utils.flatten_dict` is not in src; per
spec section 4.5/4.7 it flattens a nested mapping into dotted key paths so the
store patches individual leaves. `parent` carries the dotted prefix. -/
def flattenFields (parent : String) : List (String × Value) → List (String × Value)
  | [] => []
  | (k, v) :: rest =>
    let key := if parent == "" then k else parent ++ "." ++ k
    (match v with
     | .obj fs => flattenFields key fs
     | _ => [(key, v)]) ++ flattenFields parent rest
termination_by l => sizeOf l
decreasing_by
  all_goals simp_wf
  all_goals simp_arith [sizeOf]

/-- DatabaseClient.query (database.py lines 85-108): resolves the queue by
name, reads `query["queue_id"]` with Python dict indexing (KeyError when the
key is absent), rejects a mismatched queue_id with HTTP 400, and otherwise
runs the caller's filter over the tasks collection. -/
def DatabaseClient.query (db : DB) (queue_name : String) (q : List (String × Value)) :
    Except Err (List Task) :=
  match db.queues.find? (fun x => x.queue_name == queue_name) with
  | none => .error .notFound
  | some queue =>
    match lookupVal q "queue_id" with
    | none => .error .keyError
    | some v =>
      if !(Value.beq v (.str queue._id)) then .error .badRequest
      else .ok (db.tasks.filter (fun t => matchesFilter t q))

/-- Caller-supplied Mongo update document for the general update operation.
Only the `$set` operator appears in the modelled code paths, so the update is
represented by the contents of its `$set` key (an absent or empty `$set` is
the empty list, which is what Python's falsiness check on `update.get("$set")`
distinguishes). -/
structure MongoUpdate where
  set : List (String × Value)
deriving Repr

/-- The `$set` document the general update operation actually applies
(database.py lines 134-139): the caller's `$set` with `last_modified = now`
forced in, or just that binding when the caller's `$set` is empty or absent
(Python falsiness of `update.get("$set")`). -/
def effectiveSet (u : MongoUpdate) (now : Int) : List (String × Value) :=
  if u.set != [] then dictInsert u.set "last_modified" (.int now)
  else [("last_modified", Value.int now)]

/-- DatabaseClient.update (database.py lines 110-142): resolves the queue,
reads `query["queue_id"]` (KeyError when absent), rejects a mismatched
queue_id with HTTP 400, forces `last_modified = now` into the `$set` document,
and applies the update to every task matching the caller's filter. -/
def DatabaseClient.update (db : DB) (queue_name : String) (q : List (String × Value))
    (u : MongoUpdate) (now : Int) : Except Err (Bool × DB) :=
  match db.queues.find? (fun x => x.queue_name == queue_name) with
  | none => .error .notFound
  | some queue =>
    match lookupVal q "queue_id" with
    | none => .error .keyError
    | some v =>
      if !(Value.beq v (.str queue._id)) then .error .badRequest
      else
        let effSet := effectiveSet u now
        let modified := db.tasks.any (fun t => matchesFilter t q && !(Task.beq (applySet t effSet) t))
        .ok (modified, { db with tasks := db.tasks.map (fun t => if matchesFilter t q then applySet t effSet else t) })

/-- DatabaseClient.update_queue (database.py lines 350-387). Note the source's
`queue["metadata"].update(metadata_update) if metadata_update else queue["metadata"]`:
Python's dict.update mutates in place and returns None, so a truthy (non-empty)
metadata_update makes the persisted `metadata` value None. -/
def update_queue (db : DB) (queue_name : String) (new_queue_name new_password : Option String)
    (metadata_update : Option (List (String × Value))) (now : Int) : Except Err (Bool × DB) :=
  match db.queues.find? (fun x => x.queue_name == queue_name) with
  | none => .error .notFound
  | some queue =>
    let name := match new_queue_name with
      | some s => if s != "" then s else queue.queue_name
      | none => queue.queue_name
    let password := match new_password with
      | some p => if p != "" then hash_password p else queue.password
      | none => queue.password
    let metadata : Option (List (String × Value)) :=
      match metadata_update with
      | some m => if m != [] then none else queue.metadata
      | none => queue.metadata
    let f := fun (x : Queue) =>
      { x with queue_name := name, password := password, metadata := metadata, last_modified := now }
    let p := fun (x : Queue) => x._id == queue._id
    .ok (updateFirstModified p f Queue.beq db.queues, { db with queues := updateFirst p f db.queues })

/-- DatabaseClient.delete_worker (database.py lines 315-348): resolves the
queue, deletes the worker document (404 when absent), and when cascade_update
is set patches every task of the queue bound to that worker to a null
worker_id with last_modified bumped to now. -/
def delete_worker (db : DB) (queue_name worker_id : String) (cascade_update : Bool)
    (now : Int) : Except Err (Bool × DB) :=
  match db.queues.find? (fun x => x.queue_name == queue_name) with
  | none => .error .notFound
  | some queue =>
    let wp := fun (w : Worker) => w._id == worker_id && w.queue_id == queue._id
    if !(db.workers.any wp) then .error .notFound
    else
      let workers' := removeFirst wp db.workers
      let tasks' :=
        if cascade_update then
          db.tasks.map (fun t =>
            if t.queue_id == queue._id && t.worker_id == some worker_id then
              { t with worker_id := none, last_modified := now }
            else t)
        else db.tasks
      .ok (true, { db with workers := workers', tasks := tasks' })

/-- Post-image of the `$set` document `fetch_task` applies to the claimed task.
The `task_timeout` override is guarded by Python truthiness on the parsed
eta_max, so a parsed value of 0 does not override. -/
def applyFetchSet (t : Task) (worker_id : Option String) (now : Int)
    (task_timeout : Option Int) : Task :=
  let base : Task :=
    { t with
      status := TaskState.running
      start_time := some now
      last_heartbeat := some now
      last_modified := now
      worker_id := worker_id }
  match task_timeout with
  | some v => if v != 0 then { base with task_timeout := some v } else base
  | none => base

/-- Filter document `fetch_task` passes to find_one_and_update:
`\x7b"queue_id": ..., "status": PENDING, **extra_filter\x7d` (Python dict merge,
so extra_filter keys override the base keys). -/
def fetchQuery (qid : String) (extra_filter : List (String × Value)) : List (String × Value) :=
  dictMerge [("queue_id", Value.str qid), ("status", Value.str (TaskState.toStr .pending))] extra_filter

/-- Worker validation of fetch_task (database.py lines 420-434): a supplied
worker must exist in the queue (404) and be ACTIVE (400). -/
def checkWorker (db : DB) (queue : Queue) (worker_id : Option String) : Except Err Unit :=
  match worker_id with
  | none => .ok ()
  | some wid =>
    match db.workers.find? (fun w => w._id == wid && w.queue_id == queue._id) with
    | none => .error .notFound
    | some w => if w.status == WorkerState.active then .ok () else .error .badRequest

/-- The atomic find_one_and_update of fetch_task (database.py lines 437-466):
select the first PENDING match under priority DESC, created_at ASC, apply the
claiming `$set`, and return the post-image together with the new store state;
no match returns None and leaves the store untouched. -/
def fetch_claim (db : DB) (queue : Queue) (worker_id : Option String)
    (task_timeout : Option Int) (extra_filter : List (String × Value)) (now : Int) :
    Option Task × DB :=
  let q := fetchQuery queue._id extra_filter
  match findBest (fun t => matchesFilter t q) db.tasks with
  | none => (none, db)
  | some (pre, b, post) =>
    let b' := applyFetchSet b worker_id now task_timeout
    (some b', { db with tasks := pre ++ b' :: post })

/-- DatabaseClient.fetch_task (database.py lines 389-466). `eta_max` is passed
through `parse_timeout` in the source (utils.py, not in src); it is modelled
here as the already-parsed duration in seconds. -/
def fetch_task (db : DB) (queue_name : String) (worker_id : Option String)
    (eta_max : Option Int) (extra_filter : List (String × Value)) (now : Int) :
    Except Err (Option Task × DB) :=
  let task_timeout : Option Int := eta_max
  match db.queues.find? (fun x => x.queue_name == queue_name) with
  | none => .error .notFound
  | some queue =>
    match checkWorker db queue worker_id with
    | .error e => .error e
    | .ok _ => .ok (fetch_claim db queue worker_id task_timeout extra_filter now)

/-- DatabaseClient.cancel_task (database.py lines 569-587): resolves the queue
and unconditionally sets the task's status to CANCELLED. The update document
is exactly `\x7b"$set": \x7b"status": CANCELLED\x7d\x7d`; no other field is touched. -/
def cancel_task (db : DB) (queue_name task_id : String) : Except Err (Bool × DB) :=
  match db.queues.find? (fun x => x.queue_name == queue_name) with
  | none => .error .notFound
  | some queue =>
    let p := fun (t : Task) => t._id == task_id && t.queue_id == queue._id
    let f := fun (t : Task) => { t with status := TaskState.cancelled }
    .ok (updateFirstModified p f Task.beq db.tasks, { db with tasks := updateFirst p f db.tasks })

/-- DatabaseClient.update_task_and_reset_pending (database.py lines 526-567):
resolves the queue, flattens the caller's task_setting_update to dotted paths,
forces `last_modified = now`, `status = PENDING`, `retries = 0` on top of it,
and applies the resulting `$set` to the addressed task. -/
def update_task_and_reset_pending (db : DB) (queue_name task_id : String)
    (task_setting_update : List (String × Value)) (now : Int) : Except Err (Bool × DB) :=
  match db.queues.find? (fun x => x.queue_name == queue_name) with
  | none => .error .notFound
  | some queue =>
    let upd0 := flattenFields "" task_setting_update
    let upd1 := dictInsert upd0 "last_modified" (.int now)
    let upd2 := dictInsert upd1 "status" (.str (TaskState.toStr .pending))
    let upd3 := dictInsert upd2 "retries" (.int 0)
    let p := fun (t : Task) => t._id == task_id && t.queue_id == queue._id
    let f := fun (t : Task) => applySet t upd3
    .ok (updateFirstModified p f Task.beq db.tasks, { db with tasks := updateFirst p f db.tasks })

/-- Reserved fields of sanitize_update (db_utils.py line 197): the spec calls
the first one `id`; in the store's documents it is spelled `_id`. -/
def banned_default : List String := ["_id", "queue_id", "created_at", "last_modified"]

/-- db_utils.sanitize_update's recursive walk (db_utils.py lines 199-208): for
each binding, a banned key raises HTTP 400 immediately; a nested mapping is
walked recursively; the sanitized dictionary is returned unchanged otherwise. -/
def sanitizeFields (banned : List String) : List (String × Value) → Except Err (List (String × Value))
  | [] => .ok []
  | (k, v) :: rest =>
    if k ∈ banned then .error .badRequest
    else
      match v with
      | .obj fs =>
        match sanitizeFields banned fs with
        | .error e => .error e
        | .ok fs' =>
          match sanitizeFields banned rest with
          | .error e => .error e
          | .ok rest' => .ok ((k, .obj fs') :: rest')
      | _ =>
        match sanitizeFields banned rest with
        | .error e => .error e
        | .ok rest' => .ok ((k, v) :: rest')
termination_by l => sizeOf l
decreasing_by
  all_goals simp_wf
  all_goals simp_arith [sizeOf]

/-- db_utils.sanitize_update (db_utils.py lines 190-210) with the default
banned field list. -/
def sanitize_update (upd : List (String × Value)) : Except Err (List (String × Value)) :=
  sanitizeFields banned_default upd

/-- Modelled from the spec: the HTTP route wiring ResetTaskToPending is not in
src (only database.py and db_utils.py are); per spec section 4.5 the operation
honors the update-sanitizer of section 4.7, so the route applies sanitize_update
to the caller's task_setting_update before invoking
update_task_and_reset_pending. -/
def reset_task_to_pending (db : DB) (queue_name task_id : String)
    (task_setting_update : List (String × Value)) (now : Int) : Except Err (Bool × DB) :=
  match sanitize_update task_setting_update with
  | .error e => .error e
  | .ok upd => update_task_and_reset_pending db queue_name task_id upd now

mutual

/-- db_utils.arg_match (db_utils.py lines 95-119): a None in required matches
anything; a None provided (with non-None required) fails; two mappings must
have equal key sets ("no more, no less") and match recursively; any other
combination hits the AttributeError branch and returns False. -/
def arg_match : Value → Value → Bool
  | .null, _ => true
  | .obj r, .obj p =>
    r.all (fun kv => p.any (fun kv2 => kv2.1 == kv.1)) &&
    p.all (fun kv => r.any (fun kv2 => kv2.1 == kv.1)) &&
    argMatchPairs r p
  | _, _ => false

/-- Iteration of arg_match over the required mapping's bindings; `provided[key]`
always succeeds after the key-set check, so the None default is never the
matched value on reachable paths. -/
def argMatchPairs : List (String × Value) → List (String × Value) → Bool
  | [], _ => true
  | (k, v) :: rest, p => arg_match v ((lookupVal p k).getD .null) && argMatchPairs rest p

end

/-- Modelled from the spec: TaskFSM.fail lives in fsm.py, which is not in src.
Spec section 4.1: from RUNNING, `fail` goes to PENDING when
retries + 1 < max_retries and to FAILED otherwise, incrementing retries either
way. handle_timeouts only constructs the FSM on tasks its query already
restricted to RUNNING. -/
def fsmFail (retries max_retries : Int) : TaskState × Int :=
  if retries + 1 < max_retries then (TaskState.pending, retries + 1)
  else (TaskState.failed, retries + 1)

/-- Selection query of handle_timeouts (database.py lines 595-626): status is
RUNNING and either timeout branch fires. Each branch requires its timestamp
and its timeout to be non-null; the Mongo expression compares
`(now - timestamp) / 1000 > timeout` with real division, which over the
integers is `now - timestamp > 1000 * timeout`. -/
def timedOutQuery (now : Int) (t : Task) : Bool :=
  t.status == TaskState.running &&
  ((match t.last_heartbeat, t.heartbeat_timeout with
    | some lh, some hb => decide (now - lh > 1000 * hb)
    | _, _ => false)
   ||
   (match t.task_timeout, t.start_time with
    | some tt, some st => decide (now - st > 1000 * tt)
    | _, _ => false))

/-- The `$set` document handle_timeouts writes for one timed-out task
(database.py lines 646-656), built from the task's pre-image. -/
def timeoutUpdate (task : Task) (now : Int) : List (String × Value) :=
  let sr := fsmFail task.retries task.max_retries
  [("status", Value.str sr.1.toStr), ("retries", Value.int sr.2),
   ("last_modified", Value.int now),
   ("summary.labtasker_error", Value.str "Either heartbeat or task execution timed out")]

/-- Loop body of handle_timeouts for one timed-out task: build the fail update
from the task's pre-image and update the task by _id, recording the id when
the update reports a positive modified_count. -/
def timeoutStep (now : Int) (acc : List String × DB) (task : Task) : List String × DB :=
  let p := fun (t : Task) => t._id == task._id
  let f := fun (t : Task) => applySet t (timeoutUpdate task now)
  let ids := if updateFirstModified p f Task.beq acc.2.tasks then acc.1 ++ [task._id] else acc.1
  (ids, { acc.2 with tasks := updateFirst p f acc.2.tasks })

/-- DatabaseClient.handle_timeouts (database.py lines 589-665): select the
timed-out RUNNING tasks, then for each one apply the FSM fail transition and
update the task by _id, collecting the ids whose update reported a positive
modified_count. -/
def handle_timeouts (db : DB) (now : Int) : List String × DB :=
  let selected := db.tasks.filter (timedOutQuery now)
  selected.foldl (timeoutStep now) ([], db)

/-- Scenario harness for the ordering part of C1: the stream of tasks produced
by repeatedly calling fetch_task (without worker, eta_max or extra filter) and
feeding each post-state into the next call, stopping at the first null or
error. -/
def fetchList (qn : String) (now : Int) : Nat → DB → List Task
  | 0, _ => []
  | n + 1, db =>
    match fetch_task db qn none none [] now with
    | .ok (some t, db') => t :: fetchList qn now n db'
    | _ => []

/-- An update document mentions one of the given keys somewhere: either a
top-level binding uses the key, or some nested mapping does. This is the
specification-side reading of "an update mentioning a reserved field at any
nesting level". -/
inductive MentionsField (keys : List String) : List (String × Value) → Prop
  | here {fs : List (String × Value)} {k : String} {v : Value} :
      (k, v) ∈ fs → k ∈ keys → MentionsField keys fs
  | nested {fs : List (String × Value)} {k : String} {gs : List (String × Value)} :
      (k, .obj gs) ∈ fs → MentionsField keys gs → MentionsField keys fs

/-- Sample queue document used by the concrete witness instances below. -/
def sampleQueue : Queue :=
  { _id := "Q1", queue_name := "q", password := "h", created_at := 0,
    last_modified := 0, metadata := some [("a", Value.int 1)] }

/-- Sample pending task used by the concrete witness instances below. -/
def sampleTask (id : String) (prio created : Int) : Task :=
  { _id := id, queue_id := "Q1", status := .pending, task_name := none,
    created_at := created, start_time := none, last_heartbeat := none,
    last_modified := created, heartbeat_timeout := some 60, task_timeout := none,
    max_retries := 3, retries := 0, priority := prio, metadata := [], args := [],
    summary := [], worker_id := none }

/-- Sample active worker used by the concrete witness instances below. -/
def sampleWorker (id : String) : Worker :=
  { _id := id, queue_id := "Q1", status := .active, worker_name := none,
    metadata := [], retries := 0, max_retries := 3, created_at := 0, last_modified := 0 }

/-- Tasks of the store that the parameterless fetch filter
(queue scope + status PENDING) selects, in store order. -/
def pendingMatches (db : DB) (qid : String) : List Task :=
  db.tasks.filter (fun t => matchesFilter t (fetchQuery qid []))

/-- Store with one queue and two pending tasks of distinct priorities, used by
the C1 witness. -/
def C1db : DB :=
  { queues := [sampleQueue], tasks := [sampleTask "A" 10 0, sampleTask "B" 20 1], workers := [] }

/-- Store with one queue, one pending task and one active worker, used by the
C2 witness. -/
def C2db : DB :=
  { queues := [sampleQueue], tasks := [sampleTask "A" 10 0], workers := [sampleWorker "W1"] }

/-- RUNNING task with both timeouts null and ancient timestamps, used by the
C8 witness. -/
def C8task : Task :=
  { sampleTask "R" 10 0 with
    status := .running
    heartbeat_timeout := none
    task_timeout := none
    start_time := some 0
    last_heartbeat := some 0 }

/-- Store holding only the C8 task. -/
def C8db : DB := { queues := [sampleQueue], tasks := [C8task], workers := [] }

/-- RUNNING task bound to worker W1, used by the C9 witness. -/
def C9task : Task :=
  { sampleTask "A" 10 0 with
    status := .running
    worker_id := some "W1"
    start_time := some 2
    last_heartbeat := some 3 }

/-- Store with one queue, the C9 task and its worker. -/
def C9db : DB :=
  { queues := [sampleQueue], tasks := [C9task], workers := [sampleWorker "W1"] }

end Labtasker

namespace Labtasker

theorem betterTask_irrefl (a : Task) : betterTask a a = false := by
  simp [betterTask]

theorem betterTask_not_of_not_not (a b c : Task) (h1 : betterTask a b = false)
    (h2 : betterTask b c = false) : betterTask a c = false := by
  simp only [betterTask, Bool.or_eq_false_iff, decide_eq_false_iff_not, not_lt,
    Bool.and_eq_false_iff, beq_eq_false_iff_ne, ne_eq] at *
  obtain ⟨h1a, h1b⟩ := h1
  obtain ⟨h2a, h2b⟩ := h2
  constructor
  · omega
  · rcases h1b with h | h <;> rcases h2b with h' | h' <;>
      first
      | (left; omega)
      | (right; omega)

theorem betterTask_not_of_better (a b : Task) (h : betterTask b a = true) :
    betterTask a b = false := by
  simp only [betterTask, Bool.or_eq_true, decide_eq_true_eq, Bool.and_eq_true,
    beq_iff_eq, Bool.or_eq_false_iff, decide_eq_false_iff_not, not_lt,
    Bool.and_eq_false_iff, beq_eq_false_iff_ne, ne_eq] at *
  rcases h with h | ⟨h, h'⟩
  · constructor
    · omega
    · left; omega
  · constructor
    · omega
    · right; omega

theorem findBest_eq_none {p : Task → Bool} :
    ∀ {ts : List Task}, findBest p ts = none ↔ ∀ t ∈ ts, p t = false := by
  intro ts
  induction ts with
  | nil => simp [findBest]
  | cons t rest ih =>
    simp only [findBest]
    cases hfb : findBest p rest with
    | none =>
      by_cases hpt : p t
      · simp [hpt]
      · rw [Bool.not_eq_true] at hpt
        simp only [hpt, Bool.false_eq_true, if_false, List.mem_cons, true_iff]
        intro u hu
        rcases hu with rfl | hu
        · exact hpt
        · exact (ih.mp hfb) u hu
    | some x =>
      obtain ⟨pre, b, post⟩ := x
      have hrest : ¬ ∀ t ∈ rest, p t = false := by
        intro hall
        rw [ih.mpr hall] at hfb
        cases hfb
      constructor
      · intro h
        by_cases hpt : p t <;> by_cases hbt : betterTask b t <;>
          simp [hpt, hbt] at h
      · intro hall
        exact absurd (fun u hu => hall u (List.mem_cons_of_mem t hu)) hrest

theorem findBest_eq_some {p : Task → Bool} :
    ∀ {ts : List Task} {pre : List Task} {b : Task} {post : List Task},
      findBest p ts = some (pre, b, post) →
      ts = pre ++ b :: post ∧ p b = true ∧
        ∀ u ∈ ts, p u = true → betterTask u b = false := by
  intro ts
  induction ts with
  | nil => intro pre b post h; simp [findBest] at h
  | cons t rest ih =>
    intro pre b post h
    simp only [findBest] at h
    cases hfb : findBest p rest with
    | none =>
      rw [hfb] at h
      have hallrest := findBest_eq_none.mp hfb
      by_cases hpt : p t
      · simp only [hpt, if_true, Option.some.injEq, Prod.mk.injEq] at h
        obtain ⟨h1, h2, h3⟩ := h
        subst h1; subst h2; subst h3
        refine ⟨rfl, hpt, ?_⟩
        intro u hu hpu
        rcases List.mem_cons.mp hu with rfl | hu
        · exact betterTask_irrefl u
        · rw [hallrest u hu] at hpu; cases hpu
      · simp [hpt] at h
    | some x =>
      obtain ⟨pre', b', post'⟩ := x
      rw [hfb] at h
      obtain ⟨hdec, hpb', hmax⟩ := ih hfb
      by_cases hpt : p t
      · by_cases hbt : betterTask b' t
        · simp only [hpt, hbt, if_true, Option.some.injEq, Prod.mk.injEq] at h
          obtain ⟨h1, h2, h3⟩ := h
          subst h1; subst h2; subst h3
          refine ⟨by rw [hdec]; rfl, hpb', ?_⟩
          intro u hu hpu
          rcases List.mem_cons.mp hu with rfl | hu
          · exact betterTask_not_of_better _ _ hbt
          · exact hmax u hu hpu
        · rw [Bool.not_eq_true] at hbt
          simp only [hpt, hbt, if_true, Bool.false_eq_true, if_false,
            Option.some.injEq, Prod.mk.injEq] at h
          obtain ⟨h1, h2, h3⟩ := h
          subst h1; subst h2; subst h3
          refine ⟨rfl, hpt, ?_⟩
          intro u hu hpu
          rcases List.mem_cons.mp hu with rfl | hu
          · exact betterTask_irrefl u
          · have h1 : betterTask u b' = false := hmax u hu hpu
            exact betterTask_not_of_not_not _ _ _ h1 hbt
      · rw [Bool.not_eq_true] at hpt
        simp only [hpt, Bool.false_eq_true, if_false, Option.some.injEq, Prod.mk.injEq] at h
        obtain ⟨h1, h2, h3⟩ := h
        subst h1; subst h2; subst h3
        refine ⟨by rw [hdec]; rfl, hpb', ?_⟩
        intro u hu hpu
        rcases List.mem_cons.mp hu with rfl | hu
        · rw [hpt] at hpu; cases hpu
        · exact hmax u hu hpu

theorem taskState_toStr_eq_pending (s : TaskState) :
    (s.toStr == TaskState.toStr .pending) = (s == TaskState.pending) := by
  cases s <;> rfl

theorem matchesFilter_pendingQuery (t : Task) (qid : String) :
    matchesFilter t (fetchQuery qid []) =
      ((t.queue_id == qid) && (t.status == TaskState.pending)) := by
  show matchesFilter t [("queue_id", Value.str qid), ("status", Value.str (TaskState.toStr .pending))] = _
  simp only [matchesFilter, List.all_cons, List.all_nil, Bool.and_true]
  have h1 : Task.getField t "queue_id" = some (.str t.queue_id) := rfl
  have h2 : Task.getField t "status" = some (.str t.status.toStr) := rfl
  rw [h1, h2]
  show ((t.queue_id == qid) && (t.status.toStr == TaskState.toStr .pending)) = _
  rw [taskState_toStr_eq_pending]

theorem applyFetchSet_fields (t : Task) (w : Option String) (now : Int) (tt : Option Int) :
    (applyFetchSet t w now tt).status = TaskState.running ∧
    (applyFetchSet t w now tt).worker_id = w ∧
    (applyFetchSet t w now tt).start_time = some now ∧
    (applyFetchSet t w now tt).last_heartbeat = some now ∧
    (applyFetchSet t w now tt).last_modified = now ∧
    (applyFetchSet t w now tt).priority = t.priority ∧
    (applyFetchSet t w now tt).created_at = t.created_at ∧
    (applyFetchSet t w now tt).queue_id = t.queue_id ∧
    (applyFetchSet t w now tt)._id = t._id := by
  cases tt with
  | none => exact ⟨rfl, rfl, rfl, rfl, rfl, rfl, rfl, rfl, rfl⟩
  | some v =>
    by_cases hv : (v != 0) = true
    · simp [applyFetchSet, hv]
    · rw [Bool.not_eq_true] at hv
      simp [applyFetchSet, hv]

theorem mem_updateFirst_of_pred_false {p : Task → Bool} {f : Task → Task} {t : Task} :
    ∀ {ts : List Task}, t ∈ ts → p t = false → t ∈ updateFirst p f ts := by
  intro ts
  induction ts with
  | nil => intro h; cases h
  | cons x rest ih =>
    intro hmem hpt
    rcases List.mem_cons.mp hmem with rfl | hmem
    · simp only [updateFirst, hpt, Bool.false_eq_true, if_false]
      exact List.mem_cons_self _ _
    · by_cases hpx : p x
      · simp only [updateFirst, hpx, if_true]
        exact List.mem_cons_of_mem _ hmem
      · rw [Bool.not_eq_true] at hpx
        simp only [updateFirst, hpx, Bool.false_eq_true, if_false]
        exact List.mem_cons_of_mem _ (ih hmem hpt)

theorem nodup_map_inj {α β : Type} {f : α → β} {l : List α}
    (h : (l.map f).Nodup) {a b : α} (ha : a ∈ l) (hb : b ∈ l) (hf : f a = f b) :
    a = b := by
  induction l with
  | nil => cases ha
  | cons x rest ih =>
    rw [List.map_cons, List.nodup_cons] at h
    rcases List.mem_cons.mp ha with rfl | ha' <;> rcases List.mem_cons.mp hb with rfl | hb'
    · rfl
    · exfalso; apply h.1; rw [hf]; exact List.mem_map_of_mem f hb'
    · exfalso; apply h.1; rw [← hf]; exact List.mem_map_of_mem f ha'
    · exact ih h.2 ha' hb' 

theorem mem_removeFirst {α : Type} {p : α → Bool} {y : α} :
    ∀ {l : List α}, y ∈ removeFirst p l → y ∈ l := by
  intro l
  induction l with
  | nil => intro h; cases h
  | cons x rest ih =>
    intro h
    by_cases hpx : p x
    · simp only [removeFirst, hpx, if_true] at h
      exact List.mem_cons_of_mem _ h
    · rw [Bool.not_eq_true] at hpx
      simp only [removeFirst, hpx, Bool.false_eq_true, if_false] at h
      rcases List.mem_cons.mp h with rfl | h
      · exact List.mem_cons_self _ _
      · exact List.mem_cons_of_mem _ (ih h)

theorem removeFirst_length {α : Type} {p : α → Bool} :
    ∀ {l : List α}, l.any p = true → (removeFirst p l).length + 1 = l.length := by
  intro l
  induction l with
  | nil => intro h; cases h
  | cons x rest ih =>
    intro h
    by_cases hpx : p x
    · simp only [removeFirst, hpx, if_true, List.length_cons]
    · rw [Bool.not_eq_true] at hpx
      simp only [List.any_cons, hpx, Bool.false_or] at h
      simp only [removeFirst, hpx, Bool.false_eq_true, if_false, List.length_cons, ih h]


theorem fetch_task_no_worker (db : DB) (qn : String) (eta : Option Int)
    (ef : List (String × Value)) (now : Int) (queue : Queue)
    (hq : db.queues.find? (fun x => x.queue_name == qn) = some queue) :
    fetch_task db qn none eta ef now = .ok (fetch_claim db queue none eta ef now) := by
  simp only [fetch_task, hq]
  rfl

theorem filter_decomp (q : List (String × Value)) (pre post : List Task) (b : Task)
    (hpb : matchesFilter b q = true) :
    (pre ++ b :: post).filter (fun t => matchesFilter t q) =
      pre.filter (fun t => matchesFilter t q) ++ b :: post.filter (fun t => matchesFilter t q) := by
  simp [List.filter_append, List.filter_cons, hpb]

theorem applyFetchSet_not_pending (b : Task) (w : Option String) (now : Int)
    (tt : Option Int) (qid : String) :
    matchesFilter (applyFetchSet b w now tt) (fetchQuery qid []) = false := by
  rw [matchesFilter_pendingQuery]
  obtain ⟨h1, _⟩ := applyFetchSet_fields b w now tt
  rw [h1]
  have h2 : (TaskState.running == TaskState.pending) = false := rfl
  rw [h2, Bool.and_false]

theorem betterTask_false_le (c b : Task) (h : betterTask c b = false) :
    c.priority ≤ b.priority := by
  simp only [betterTask, Bool.or_eq_false_iff, decide_eq_false_iff_not, not_lt] at h
  exact h.1

theorem fetchList_spec (qn : String) (now : Int) :
    ∀ (n : Nat) (db : DB) (queue : Queue),
      db.queues.find? (fun x => x.queue_name == qn) = some queue →
      (pendingMatches db queue._id).Pairwise (fun a b => a.priority ≠ b.priority) →
      List.Chain' (fun a b => b.priority < a.priority) (fetchList qn now n db) ∧
      (fetchList qn now n db).length = min n (pendingMatches db queue._id).length ∧
      (∀ x ∈ fetchList qn now n db,
        ∃ c ∈ pendingMatches db queue._id, x.priority = c.priority) := by
  intro n
  induction n with
  | zero =>
    intro db queue hq hp
    simp [fetchList]
  | succ n ih =>
    intro db queue hq hp
    have hstep := fetch_task_no_worker db qn none [] now queue hq
    cases hfb : findBest (fun t => matchesFilter t (fetchQuery queue._id [])) db.tasks with
    | none =>
      have hempty : pendingMatches db queue._id = [] := by
        unfold pendingMatches
        rw [List.filter_eq_nil_iff]
        intro a ha
        rw [findBest_eq_none.mp hfb a ha]
        simp
      have hfetch : fetchList qn now (n + 1) db = [] := by
        simp only [fetchList]
        rw [hstep]
        simp only [fetch_claim, hfb]
      rw [hfetch, hempty]
      simp
    | some x =>
      obtain ⟨pre, b, post⟩ := x
      obtain ⟨hdec, hpb, hmax⟩ := findBest_eq_some hfb
      have hfetch : fetchList qn now (n + 1) db =
          applyFetchSet b none now none ::
            fetchList qn now n { db with tasks := pre ++ applyFetchSet b none now none :: post } := by
        simp only [fetchList]
        rw [hstep]
        simp only [fetch_claim, hfb]
      have hfilter : pendingMatches db queue._id =
          pre.filter (fun t => matchesFilter t (fetchQuery queue._id [])) ++
            b :: post.filter (fun t => matchesFilter t (fetchQuery queue._id [])) := by
        unfold pendingMatches
        rw [hdec]
        exact filter_decomp _ _ _ _ hpb
      have hfilter' :
          pendingMatches { db with tasks := pre ++ applyFetchSet b none now none :: post } queue._id =
            pre.filter (fun t => matchesFilter t (fetchQuery queue._id [])) ++
              post.filter (fun t => matchesFilter t (fetchQuery queue._id [])) := by
        unfold pendingMatches
        show (pre ++ applyFetchSet b none now none :: post).filter _ = _
        rw [List.filter_append, List.filter_cons, applyFetchSet_not_pending]
        simp
      have hq' : ({ db with tasks := pre ++ applyFetchSet b none now none :: post } : DB).queues.find?
          (fun x => x.queue_name == qn) = some queue := hq
      have hpdec := hfilter ▸ hp
      have hp' : (pendingMatches { db with tasks := pre ++ applyFetchSet b none now none :: post }
          queue._id).Pairwise (fun a b => a.priority ≠ b.priority) := by
        rw [hfilter']
        refine List.Pairwise.sublist ?_ hpdec
        exact List.Sublist.append_left (List.sublist_cons_self _ _) _
      obtain ⟨ihChain, ihLen, ihMem⟩ := ih _ queue hq' hp'
      have hb'pri : (applyFetchSet b none now none).priority = b.priority :=
        (applyFetchSet_fields b none now none).2.2.2.2.2.1
      have hltAll : ∀ c, c ∈ pendingMatches { db with tasks := pre ++ applyFetchSet b none now none :: post } queue._id →
          c.priority < b.priority := by
        intro c hc
        rw [hfilter'] at hc
        have hcm : matchesFilter c (fetchQuery queue._id []) = true := by
          rcases List.mem_append.mp hc with h | h
          · exact (List.mem_filter.mp h).2
          · exact (List.mem_filter.mp h).2
        have hcdb : c ∈ db.tasks := by
          rw [hdec]
          rcases List.mem_append.mp hc with h | h
          · exact List.mem_append.mpr (Or.inl (List.mem_of_mem_filter h))
          · exact List.mem_append.mpr (Or.inr (List.mem_cons_of_mem _ (List.mem_of_mem_filter h)))
        have hnb : betterTask c b = false := hmax c hcdb hcm
        have hble : c.priority ≤ b.priority := betterTask_false_le c b hnb
        have hne : c.priority ≠ b.priority := by
          rw [List.pairwise_append] at hpdec
          rcases List.mem_append.mp hc with h | h
          · exact hpdec.2.2 c h b (List.mem_cons_self _ _)
          · have hbc := (List.pairwise_cons.mp hpdec.2.1).1 c h
            exact fun hcb => hbc hcb.symm
        exact lt_of_le_of_ne hble hne
      refine ⟨?_, ?_, ?_⟩
      · rw [hfetch]
        rw [List.chain'_cons']
        refine ⟨?_, ihChain⟩
        intro y hy
        have hymem := List.mem_of_mem_head? hy
        obtain ⟨c, hc, hyp⟩ := ihMem y hymem
        rw [hb'pri, hyp]
        exact hltAll c hc
      · rw [hfetch, List.length_cons, ihLen, hfilter', hfilter]
        simp only [List.length_append, List.length_cons]
        omega
      · rw [hfetch]
        intro x hx
        rcases List.mem_cons.mp hx with rfl | hx
        · refine ⟨b, ?_, hb'pri⟩
          rw [hfilter]
          exact List.mem_append.mpr (Or.inr (List.mem_cons_self _ _))
        · obtain ⟨c, hc, hxp⟩ := ihMem x hx
          refine ⟨c, ?_, hxp⟩
          rw [hfilter']  at hc
          rw [hfilter]
          rcases List.mem_append.mp hc with h | h
          · exact List.mem_append.mpr (Or.inl h)
          · exact List.mem_append.mpr (Or.inr (List.mem_cons_of_mem _ h))

/-- C1: for every queue, fetch_task atomically selects at most one task
matching the find_one_and_update filter (resolved queue_id, status PENDING,
merged with any extra_filter), choosing the best task under priority DESC,
created_at ASC (so no matching task sorts strictly better), and transitions
exactly that task to RUNNING in the same store operation; when no task matches
it returns null with the store untouched, not an error; and on a store whose
pending tasks have pairwise distinct priorities, repeated fetching yields
tasks in strictly decreasing priority order, with N fetches draining all N
pending tasks. -/
theorem C1_fetch_task_ordering (db : DB) (qn : String) (queue : Queue) (now : Int)
    (ef : List (String × Value))
    (hq : db.queues.find? (fun x => x.queue_name == qn) = some queue) :
    (∀ t' db', fetch_task db qn none none ef now = .ok (some t', db') →
      ∃ pre b post,
        db.tasks = pre ++ b :: post ∧
        matchesFilter b (fetchQuery queue._id ef) = true ∧
        (∀ u ∈ db.tasks, matchesFilter u (fetchQuery queue._id ef) = true →
          betterTask u b = false) ∧
        t' = applyFetchSet b none now none ∧
        t'.status = TaskState.running ∧
        db' = { db with tasks := pre ++ applyFetchSet b none now none :: post }) ∧
    (fetch_task db qn none none ef now = .ok (none, db) ↔
      ∀ t ∈ db.tasks, matchesFilter t (fetchQuery queue._id ef) = false) ∧
    ((pendingMatches db queue._id).Pairwise (fun a b => a.priority ≠ b.priority) →
      (∀ n : Nat, List.Chain' (fun a b => b.priority < a.priority) (fetchList qn now n db)) ∧
      (fetchList qn now (pendingMatches db queue._id).length db).length =
        (pendingMatches db queue._id).length) := by
  have hstep := fetch_task_no_worker db qn none ef now queue hq
  refine ⟨?_, ?_, ?_⟩
  · intro t' db' h
    rw [hstep] at h
    simp only [Except.ok.injEq] at h
    cases hfb : findBest (fun t => matchesFilter t (fetchQuery queue._id ef)) db.tasks with
    | none =>
      simp only [fetch_claim, hfb, Prod.mk.injEq] at h
      exact Option.noConfusion h.1
    | some x =>
      obtain ⟨pre, b, post⟩ := x
      obtain ⟨hdec, hpb, hmax⟩ := findBest_eq_some hfb
      simp only [fetch_claim, hfb, Prod.mk.injEq, Option.some.injEq] at h
      obtain ⟨ht', hdb'⟩ := h
      exact ⟨pre, b, post, hdec, hpb, hmax, ht'.symm,
        by rw [ht'.symm]; exact (applyFetchSet_fields b none now none).1, hdb'.symm⟩
  · constructor
    · intro h
      rw [hstep] at h
      simp only [Except.ok.injEq] at h
      cases hfb : findBest (fun t => matchesFilter t (fetchQuery queue._id ef)) db.tasks with
      | none =>
        intro t ht
        exact findBest_eq_none.mp hfb t ht
      | some x =>
        obtain ⟨pre, b, post⟩ := x
        simp only [fetch_claim, hfb, Prod.mk.injEq] at h
        exact Option.noConfusion h.1
    · intro hall
      rw [hstep]
      have hfb : findBest (fun t => matchesFilter t (fetchQuery queue._id ef)) db.tasks = none :=
        findBest_eq_none.mpr hall
      simp only [fetch_claim, hfb]
  · intro hp
    constructor
    · intro n
      exact (fetchList_spec qn now n db queue hq hp).1
    · have h := (fetchList_spec qn now (pendingMatches db queue._id).length db queue hq hp).2.1
      rw [Nat.min_self] at h
      exact h

/-- Witness for C1: on a store with two pending tasks of priorities 10 and 20,
two fetches drain both tasks in strictly decreasing priority order. -/
theorem C1_fetch_task_ordering_witness :
    (C1db.queues.find? (fun x => x.queue_name == "q") = some sampleQueue) ∧
    List.Chain' (fun a b => b.priority < a.priority) (fetchList "q" 5 2 C1db) ∧
    (fetchList "q" 5 2 C1db).length = 2 := by
  refine ⟨rfl, ?_, ?_⟩
  · exact ((C1_fetch_task_ordering C1db "q" sampleQueue 5 [] rfl).2.2 (by decide)).1 2
  · exact ((C1_fetch_task_ordering C1db "q" sampleQueue 5 [] rfl).2.2 (by decide)).2

/-- C2: whenever fetch_task returns a non-null task, that task's status is
RUNNING, its worker_id equals the worker_id argument (null when none was
supplied), and its start_time and last_heartbeat are the current time of the
claim. -/
theorem C2_fetch_result_shape (db : DB) (qn : String) (wid : Option String)
    (eta : Option Int) (ef : List (String × Value)) (now : Int) (t' : Task) (db' : DB)
    (h : fetch_task db qn wid eta ef now = .ok (some t', db')) :
    t'.status = TaskState.running ∧ t'.worker_id = wid ∧
    t'.start_time = some now ∧ t'.last_heartbeat = some now := by
  cases hq : db.queues.find? (fun x => x.queue_name == qn) with
  | none => simp only [fetch_task, hq] at h; exact Except.noConfusion h
  | some queue =>
    simp only [fetch_task, hq] at h
    cases hwc : checkWorker db queue wid with
    | error e => simp only [hwc] at h; exact Except.noConfusion h
    | ok u =>
      simp only [hwc, Except.ok.injEq] at h
      cases hfb : findBest (fun t => matchesFilter t (fetchQuery queue._id ef)) db.tasks with
      | none =>
        simp only [fetch_claim, hfb, Prod.mk.injEq] at h
        exact Option.noConfusion h.1
      | some x =>
        obtain ⟨pre, b, post⟩ := x
        simp only [fetch_claim, hfb, Prod.mk.injEq, Option.some.injEq] at h
        obtain ⟨ht', hdb'⟩ := h
        subst ht'
        obtain ⟨h1, h2, h3, h4, _⟩ := applyFetchSet_fields b wid now eta
        exact ⟨h1, h2, h3, h4⟩

/-- Witness for C2: fetching with an active worker W1 yields the task claimed
for W1, RUNNING, with both timestamps set to the fetch time. -/
theorem C2_fetch_result_shape_witness :
    ∃ t' db', fetch_task C2db "q" (some "W1") none [] 5 = .ok (some t', db') ∧
      t'.status = TaskState.running ∧ t'.worker_id = some "W1" ∧
      t'.start_time = some 5 ∧ t'.last_heartbeat = some 5 := by
  refine ⟨_, _, rfl, C2_fetch_result_shape C2db "q" (some "W1") none [] 5 _ _ rfl⟩

theorem setStatusVal_lm (t : Task) (v : Value) : (t.setStatusVal v).last_modified = t.last_modified := by
  unfold Task.setStatusVal
  repeat' split
  all_goals rfl

theorem setRetriesVal_lm (t : Task) (v : Value) : (t.setRetriesVal v).last_modified = t.last_modified := by
  unfold Task.setRetriesVal
  split
  all_goals rfl

theorem setWorkerIdVal_lm (t : Task) (v : Value) : (t.setWorkerIdVal v).last_modified = t.last_modified := by
  unfold Task.setWorkerIdVal
  split
  all_goals rfl

theorem setStartTimeVal_lm (t : Task) (v : Value) : (t.setStartTimeVal v).last_modified = t.last_modified := by
  unfold Task.setStartTimeVal
  split
  all_goals rfl

theorem setLastHeartbeatVal_lm (t : Task) (v : Value) : (t.setLastHeartbeatVal v).last_modified = t.last_modified := by
  unfold Task.setLastHeartbeatVal
  split
  all_goals rfl

theorem setHeartbeatTimeoutVal_lm (t : Task) (v : Value) : (t.setHeartbeatTimeoutVal v).last_modified = t.last_modified := by
  unfold Task.setHeartbeatTimeoutVal
  split
  all_goals rfl

theorem setTaskTimeoutVal_lm (t : Task) (v : Value) : (t.setTaskTimeoutVal v).last_modified = t.last_modified := by
  unfold Task.setTaskTimeoutVal
  split
  all_goals rfl

theorem setMaxRetriesVal_lm (t : Task) (v : Value) : (t.setMaxRetriesVal v).last_modified = t.last_modified := by
  unfold Task.setMaxRetriesVal
  split
  all_goals rfl

theorem setPriorityVal_lm (t : Task) (v : Value) : (t.setPriorityVal v).last_modified = t.last_modified := by
  unfold Task.setPriorityVal
  split
  all_goals rfl

theorem setTaskNameVal_lm (t : Task) (v : Value) : (t.setTaskNameVal v).last_modified = t.last_modified := by
  unfold Task.setTaskNameVal
  split
  all_goals rfl

theorem setMetadataVal_lm (t : Task) (v : Value) : (t.setMetadataVal v).last_modified = t.last_modified := by
  unfold Task.setMetadataVal
  split
  all_goals rfl

theorem setArgsVal_lm (t : Task) (v : Value) : (t.setArgsVal v).last_modified = t.last_modified := by
  unfold Task.setArgsVal
  split
  all_goals rfl

theorem setSummaryVal_lm (t : Task) (v : Value) : (t.setSummaryVal v).last_modified = t.last_modified := by
  unfold Task.setSummaryVal
  split
  all_goals rfl

theorem setDotted_lm (t : Task) (k : String) (v : Value) : (t.setDotted k v).last_modified = t.last_modified := by
  unfold Task.setDotted
  split
  all_goals rfl

theorem setField_lm_frame (t : Task) (k : String) (v : Value)
    (hk : (k == "last_modified") = false) :
    (Task.setField t k v).last_modified = t.last_modified := by
  unfold Task.setField
  by_cases h1 : (k == "status") = true
  · rw [if_pos h1]; exact setStatusVal_lm t v
  rw [if_neg h1]
  by_cases h2 : (k == "retries") = true
  · rw [if_pos h2]; exact setRetriesVal_lm t v
  rw [if_neg h2]
  rw [if_neg (by rw [hk]; exact Bool.false_ne_true)]
  by_cases h4 : (k == "worker_id") = true
  · rw [if_pos h4]; exact setWorkerIdVal_lm t v
  rw [if_neg h4]
  by_cases h5 : (k == "start_time") = true
  · rw [if_pos h5]; exact setStartTimeVal_lm t v
  rw [if_neg h5]
  by_cases h6 : (k == "last_heartbeat") = true
  · rw [if_pos h6]; exact setLastHeartbeatVal_lm t v
  rw [if_neg h6]
  by_cases h7 : (k == "heartbeat_timeout") = true
  · rw [if_pos h7]; exact setHeartbeatTimeoutVal_lm t v
  rw [if_neg h7]
  by_cases h8 : (k == "task_timeout") = true
  · rw [if_pos h8]; exact setTaskTimeoutVal_lm t v
  rw [if_neg h8]
  by_cases h9 : (k == "max_retries") = true
  · rw [if_pos h9]; exact setMaxRetriesVal_lm t v
  rw [if_neg h9]
  by_cases h10 : (k == "priority") = true
  · rw [if_pos h10]; exact setPriorityVal_lm t v
  rw [if_neg h10]
  by_cases h11 : (k == "task_name") = true
  · rw [if_pos h11]; exact setTaskNameVal_lm t v
  rw [if_neg h11]
  by_cases h12 : (k == "metadata") = true
  · rw [if_pos h12]; exact setMetadataVal_lm t v
  rw [if_neg h12]
  by_cases h13 : (k == "args") = true
  · rw [if_pos h13]; exact setArgsVal_lm t v
  rw [if_neg h13]
  by_cases h14 : (k == "summary") = true
  · rw [if_pos h14]; exact setSummaryVal_lm t v
  rw [if_neg h14]
  exact setDotted_lm t k v

theorem setField_lm_set (t : Task) (n : Int) :
    (Task.setField t "last_modified" (.int n)).last_modified = n := by
  rfl

theorem applySet_lm_frame : ∀ (s : List (String × Value)) (t : Task),
    (∀ kv ∈ s, (kv.1 == "last_modified") = false) →
    (applySet t s).last_modified = t.last_modified := by
  intro s
  induction s with
  | nil => intro t _; rfl
  | cons kv rest ih =>
    intro t hall
    show (applySet (Task.setField t kv.1 kv.2) rest).last_modified = t.last_modified
    rw [ih _ (fun kv' h' => hall kv' (List.mem_cons_of_mem _ h'))]
    exact setField_lm_frame t kv.1 kv.2 (hall kv (List.mem_cons_self _ _))

theorem applySet_lm_now (now : Int) : ∀ (s : List (String × Value)) (t : Task),
    (∀ kv ∈ s, kv.1 = "last_modified" → kv.2 = Value.int now) →
    (∃ kv ∈ s, kv.1 = "last_modified") →
    (applySet t s).last_modified = now := by
  intro s
  induction s with
  | nil =>
    rintro t _ ⟨kv, h, _⟩
    cases h
  | cons kv rest ih =>
    intro t hall hex
    show (applySet (Task.setField t kv.1 kv.2) rest).last_modified = now
    by_cases hrest : ∃ kv' ∈ rest, kv'.1 = "last_modified"
    · exact ih _ (fun kv' h' => hall kv' (List.mem_cons_of_mem _ h')) hrest
    · obtain ⟨kv0, hkv0, hlm0⟩ := hex
      rcases List.mem_cons.mp hkv0 with rfl | h0
      · have hval := hall kv0 (List.mem_cons_self _ _) hlm0
        have hnorest : ∀ kv' ∈ rest, (kv'.1 == "last_modified") = false := by
          intro kv' h'
          rw [beq_eq_false_iff_ne]
          exact fun heq => hrest ⟨kv', h', heq⟩
        rw [applySet_lm_frame rest _ hnorest]
        obtain ⟨k0, v0⟩ := kv0
        simp only at hlm0 hval
        rw [hlm0, hval]
        exact setField_lm_set t now
      · exact absurd ⟨kv0, h0, hlm0⟩ hrest

theorem dictInsert_key_all (d : List (String × Value)) (k : String) (v : Value) :
    ∀ kv ∈ dictInsert d k v, kv.1 = k → kv.2 = v := by
  intro kv hkv hk1
  unfold dictInsert at hkv
  by_cases hany : d.any (fun kv => kv.1 == k)
  · rw [if_pos hany] at hkv
    obtain ⟨kv0, hkv0, himg⟩ := List.mem_map.mp hkv
    by_cases h0 : (kv0.1 == k) = true
    · rw [if_pos h0] at himg
      rw [← himg]
    · rw [Bool.not_eq_true] at h0
      rw [if_neg (by simp [h0])] at himg
      rw [← himg] at hk1
      rw [beq_eq_false_iff_ne] at h0
      exact absurd hk1 h0
  · rw [if_neg hany] at hkv
    rcases List.mem_append.mp hkv with h | h
    · rw [List.any_eq_true] at hany
      exact absurd ⟨kv, h, by rw [hk1]; exact beq_self_eq_true _⟩ hany
    · rcases List.mem_singleton.mp h with rfl
      rfl

theorem dictInsert_key_mem (d : List (String × Value)) (k : String) (v : Value) :
    ∃ kv ∈ dictInsert d k v, kv.1 = k := by
  unfold dictInsert
  by_cases hany : d.any (fun kv => kv.1 == k)
  · rw [if_pos hany]
    rw [List.any_eq_true] at hany
    obtain ⟨kv0, hkv0, hk0⟩ := hany
    refine ⟨(k, v), List.mem_map.mpr ⟨kv0, hkv0, ?_⟩, rfl⟩
    rw [if_pos hk0]
  · rw [if_neg hany]
    exact ⟨(k, v), List.mem_append.mpr (Or.inr (List.mem_singleton.mpr rfl)), rfl⟩

theorem effectiveSet_lm (u : MongoUpdate) (now : Int) (t : Task) :
    (applySet t (effectiveSet u now)).last_modified = now := by
  unfold effectiveSet
  by_cases h : (u.set != []) = true
  · rw [if_pos h]
    refine applySet_lm_now now _ t ?_ ?_
    · exact fun kv hkv => dictInsert_key_all u.set "last_modified" (Value.int now) kv hkv
    · exact dictInsert_key_mem u.set "last_modified" (Value.int now)
  · rw [if_neg h]
    refine applySet_lm_now now _ t ?_ ?_
    · intro kv hkv _
      rcases List.mem_singleton.mp hkv with rfl
      rfl
    · exact ⟨_, List.mem_singleton.mpr rfl, rfl⟩

theorem updateFirst_map_eq {α β : Type} (p : α → Bool) (f : α → α) (g : α → β)
    (hg : ∀ x, g (f x) = g x) : ∀ l : List α, (updateFirst p f l).map g = l.map g := by
  intro l
  induction l with
  | nil => rfl
  | cons x rest ih =>
    by_cases hpx : p x
    · simp only [updateFirst, hpx, if_true, List.map_cons, hg]
    · rw [Bool.not_eq_true] at hpx
      simp only [updateFirst, hpx, Bool.false_eq_true, if_false, List.map_cons, ih]


theorem value_beq_str (a b : String) : Value.beq (.str a) (.str b) = (a == b) := rfl

theorem matchesFilter_all {t : Task} {q : List (String × Value)}
    (h : matchesFilter t q = true) {kv : String × Value} (hkv : kv ∈ q) :
    ∃ fv, Task.getField t kv.1 = some fv ∧ Value.beq fv kv.2 = true := by
  rw [matchesFilter, List.all_eq_true] at h
  have := h kv hkv
  cases hf : Task.getField t kv.1 with
  | none => rw [hf] at this; cases this
  | some fv => rw [hf] at this; exact ⟨fv, rfl, this⟩

theorem lookupVal_mem {q : List (String × Value)} {k : String} {v : Value}
    (h : lookupVal q k = some v) : (k, v) ∈ q := by
  unfold lookupVal at h
  cases hf : q.find? (fun kv => kv.1 == k) with
  | none => rw [hf] at h; cases h
  | some kv =>
    rw [hf] at h
    simp only [Option.map] at h
    injection h with h
    have hmem := List.mem_of_find?_eq_some hf
    have hkey := List.find?_some hf
    simp only [beq_iff_eq] at hkey
    have : kv = (k, v) := by
      obtain ⟨k0, v0⟩ := kv
      simp only at hkey h
      rw [hkey, h]
    rw [← this]
    exact hmem

/-- C10: the general query and update operations read the caller filter's
queue_id key with Python dict indexing, so a filter without that key raises an
uncaught KeyError (an internal error, distinct from BadRequest and NotFound)
instead of injecting the queue scope; the scope check only compares a
queue_id the caller already supplied. -/
theorem C10_missing_queue_id (db : DB) (qn : String) (queue : Queue)
    (q : List (String × Value)) (u : MongoUpdate) (now : Int)
    (hq : db.queues.find? (fun x => x.queue_name == qn) = some queue)
    (hnone : lookupVal q "queue_id" = none) :
    DatabaseClient.query db qn q = .error .keyError ∧
    DatabaseClient.update db qn q u now = .error .keyError ∧
    Err.keyError ≠ Err.badRequest ∧ Err.keyError ≠ Err.notFound := by
  refine ⟨?_, ?_, by decide, by decide⟩
  · simp only [DatabaseClient.query, hq, hnone]
  · simp only [DatabaseClient.update, hq, hnone]

/-- Witness for C10: a filter naming only status makes both operations
surface the KeyError. -/
theorem C10_missing_queue_id_witness :
    (C1db.queues.find? (fun x => x.queue_name == "q") = some sampleQueue) ∧
    lookupVal [("status", Value.str "pending")] "queue_id" = none ∧
    DatabaseClient.query C1db "q" [("status", Value.str "pending")] = .error .keyError ∧
    DatabaseClient.update C1db "q" [("status", Value.str "pending")] ⟨[]⟩ 7 = .error .keyError := by
  refine ⟨rfl, rfl, ?_, ?_⟩
  · exact (C10_missing_queue_id C1db "q" sampleQueue [("status", Value.str "pending")] ⟨[]⟩ 7 rfl rfl).1
  · exact (C10_missing_queue_id C1db "q" sampleQueue [("status", Value.str "pending")] ⟨[]⟩ 7 rfl rfl).2.1

/-- C6: on an existing queue, a caller filter whose queue_id differs from the
resolved queue's id makes both general operations fail with BadRequest; when
it agrees, the query returns exactly the tasks satisfying the caller's filter,
every such task lies in the resolved queue (so the effective filter is the
caller's filter AND the queue scope), and the update touches only tasks
satisfying that same filter. -/
theorem C6_queue_scope (db : DB) (qn : String) (queue : Queue)
    (q : List (String × Value)) (u : MongoUpdate) (now : Int) (v : Value)
    (hq : db.queues.find? (fun x => x.queue_name == qn) = some queue)
    (hv : lookupVal q "queue_id" = some v) :
    (Value.beq v (.str queue._id) = false →
      DatabaseClient.query db qn q = .error .badRequest ∧
      DatabaseClient.update db qn q u now = .error .badRequest) ∧
    (v = .str queue._id →
      DatabaseClient.query db qn q = .ok (db.tasks.filter (fun t => matchesFilter t q)) ∧
      (∀ t ∈ db.tasks, matchesFilter t q = true → t.queue_id = queue._id) ∧
      ∃ m db', DatabaseClient.update db qn q u now = .ok (m, db') ∧
        db'.queues = db.queues ∧ db'.workers = db.workers ∧
        db'.tasks = db.tasks.map (fun t =>
          if matchesFilter t q then applySet t (effectiveSet u now) else t)) := by
  constructor
  · intro hne
    constructor
    · simp only [DatabaseClient.query, hq, hv, hne, Bool.not_false, if_true]
    · simp only [DatabaseClient.update, hq, hv, hne, Bool.not_false, if_true]
  · intro hveq
    subst hveq
    have hbeq : Value.beq (.str queue._id) (.str queue._id) = true := by
      rw [value_beq_str]
      exact beq_self_eq_true _
    have hscope : ∀ t ∈ db.tasks, matchesFilter t q = true → t.queue_id = queue._id := by
      intro t ht hm
      obtain ⟨fv, hgf, hfv⟩ := matchesFilter_all hm (lookupVal_mem hv)
      have hgf' : Task.getField t "queue_id" = some (.str t.queue_id) := rfl
      rw [hgf'] at hgf
      obtain rfl := Option.some.injEq _ _ ▸ hgf
      rw [value_beq_str, beq_iff_eq] at hfv
      exact hfv
    refine ⟨?_, hscope, ?_⟩
    · simp only [DatabaseClient.query, hq, hv, hbeq, Bool.not_true, Bool.false_eq_true, if_false]
    · have hupd : DatabaseClient.update db qn q u now =
          .ok (db.tasks.any (fun t => matchesFilter t q &&
                !(Task.beq (applySet t (effectiveSet u now)) t)),
              { db with tasks := db.tasks.map (fun t =>
                  if matchesFilter t q then applySet t (effectiveSet u now) else t) }) := by
        simp only [DatabaseClient.update, hq, hv, hbeq, Bool.not_true, Bool.false_eq_true, if_false]
      exact ⟨_, _, hupd, rfl, rfl, rfl⟩

/-- Witness for C6: a filter scoped to the real queue id succeeds and is queue
bound; a filter with a foreign queue_id is rejected with BadRequest. -/
theorem C6_queue_scope_witness :
    (C1db.queues.find? (fun x => x.queue_name == "q") = some sampleQueue) ∧
    lookupVal [("queue_id", Value.str "Q1")] "queue_id" = some (Value.str "Q1") ∧
    DatabaseClient.query C1db "q" [("queue_id", Value.str "Q1")] =
      .ok (C1db.tasks.filter (fun t => matchesFilter t [("queue_id", Value.str "Q1")])) ∧
    (∀ t ∈ C1db.tasks, matchesFilter t [("queue_id", Value.str "Q1")] = true →
      t.queue_id = "Q1") ∧
    DatabaseClient.query C1db "q" [("queue_id", Value.str "OTHER")] = .error .badRequest := by
  refine ⟨rfl, rfl, ?_, ?_, ?_⟩
  · exact ((C6_queue_scope C1db "q" sampleQueue [("queue_id", Value.str "Q1")] ⟨[]⟩ 7
        (Value.str "Q1") rfl rfl).2 rfl).1
  · exact ((C6_queue_scope C1db "q" sampleQueue [("queue_id", Value.str "Q1")] ⟨[]⟩ 7
        (Value.str "Q1") rfl rfl).2 rfl).2.1
  · exact ((C6_queue_scope C1db "q" sampleQueue [("queue_id", Value.str "OTHER")] ⟨[]⟩ 7
        (Value.str "OTHER") rfl rfl).1 rfl).1

/-- C3 as amended: last_modified is set to the operation time by the general
update operation on every task matching the filter and by the worker-delete
cascade on every patched task (hence non-decreasing whenever the clock time is
at least the stored value) — but cancel_task writes only status and leaves
last_modified of every task unchanged, so the claim's "every mutating
operation, including CancelTask" does not hold. -/
theorem C3_last_modified_amended (db : DB) (qn : String) (queue : Queue)
    (q : List (String × Value)) (u : MongoUpdate) (now : Int) (wid tid : String)
    (hq : db.queues.find? (fun x => x.queue_name == qn) = some queue) :
    (∀ m db', DatabaseClient.update db qn q u now = .ok (m, db') →
      db'.tasks = db.tasks.map (fun t =>
        if matchesFilter t q then applySet t (effectiveSet u now) else t) ∧
      ∀ t ∈ db.tasks, matchesFilter t q = true →
        (applySet t (effectiveSet u now)).last_modified = now ∧
        (t.last_modified ≤ now →
          t.last_modified ≤ (applySet t (effectiveSet u now)).last_modified)) ∧
    (∀ m db', delete_worker db qn wid true now = .ok (m, db') →
      db'.tasks = db.tasks.map (fun t =>
        if t.queue_id == queue._id && t.worker_id == some wid then
          { t with worker_id := none, last_modified := now } else t) ∧
      ∀ t ∈ db.tasks, (t.queue_id == queue._id && t.worker_id == some wid) = true →
        ({ t with worker_id := none, last_modified := now } : Task).last_modified = now ∧
        (t.last_modified ≤ now →
          t.last_modified ≤ ({ t with worker_id := none, last_modified := now } : Task).last_modified)) ∧
    (∀ m db', cancel_task db qn tid = .ok (m, db') →
      db'.tasks.map (fun t => t.last_modified) = db.tasks.map (fun t => t.last_modified)) := by
  refine ⟨?_, ?_, ?_⟩
  · intro m db' h
    cases hv : lookupVal q "queue_id" with
    | none =>
      simp only [DatabaseClient.update, hq, hv] at h
      exact Except.noConfusion h
    | some v =>
      by_cases hbeq : Value.beq v (.str queue._id) = true
      · simp only [DatabaseClient.update, hq, hv, hbeq, Bool.not_true, Bool.false_eq_true,
          if_false, Except.ok.injEq, Prod.mk.injEq] at h
        obtain ⟨_, hdb'⟩ := h
        subst hdb'
        refine ⟨rfl, ?_⟩
        intro t ht hm
        refine ⟨effectiveSet_lm u now t, ?_⟩
        intro hle
        rw [effectiveSet_lm u now t]
        exact hle
      · rw [Bool.not_eq_true] at hbeq
        simp only [DatabaseClient.update, hq, hv, hbeq, Bool.not_false, if_true] at h
        exact Except.noConfusion h
  · intro m db' h
    by_cases hw : db.workers.any (fun w => w._id == wid && w.queue_id == queue._id) = true
    · simp only [delete_worker, hq, hw, Bool.not_true, Bool.false_eq_true, if_false, if_true,
        Except.ok.injEq, Prod.mk.injEq] at h
      obtain ⟨_, hdb'⟩ := h
      subst hdb'
      refine ⟨rfl, ?_⟩
      intro t ht hm
      exact ⟨rfl, fun hle => hle⟩
    · rw [Bool.not_eq_true] at hw
      simp only [delete_worker, hq, hw, Bool.not_false, if_true] at h
      exact Except.noConfusion h
  · intro m db' h
    simp only [cancel_task, hq, Except.ok.injEq, Prod.mk.injEq] at h
    obtain ⟨_, hdb'⟩ := h
    subst hdb'
    exact updateFirst_map_eq (fun t => t._id == tid && t.queue_id == queue._id)
      (fun t => { t with status := TaskState.cancelled })
      (fun t => t.last_modified) (fun x => rfl) db.tasks

/-- Counterexample for C3 as stated: cancel_task mutates task A (status goes
from PENDING to CANCELLED, modified_count is positive) yet its last_modified
stays at its creation value 0 — the operation takes no clock at all, so no
bump can occur. -/
theorem C3_cancel_counterexample :
    cancel_task C1db "q" "A" =
      .ok (true, { C1db with
        tasks := [{ sampleTask "A" 10 0 with status := TaskState.cancelled },
                  sampleTask "B" 20 1] }) ∧
    ({ sampleTask "A" 10 0 with status := TaskState.cancelled } : Task).last_modified =
      (sampleTask "A" 10 0).last_modified ∧
    (sampleTask "A" 10 0).status ≠ TaskState.cancelled := by
  exact ⟨rfl, rfl, by decide⟩

/-- Witness for C3 as amended: a concrete general update at time 9 leaves the
matching task with last_modified 9. -/
theorem C3_last_modified_amended_witness :
    (C1db.queues.find? (fun x => x.queue_name == "q") = some sampleQueue) ∧
    (applySet (sampleTask "A" 10 0) (effectiveSet ⟨[("priority", Value.int 5)]⟩ 9)).last_modified = 9 := by
  refine ⟨rfl, ?_⟩
  have h := ((C3_last_modified_amended C1db "q" sampleQueue [("queue_id", Value.str "Q1")]
      ⟨[("priority", Value.int 5)]⟩ 9 "W" "A" rfl).1 _ _ rfl).2
      (sampleTask "A" 10 0) (List.mem_cons_self _ _) (by rfl)
  exact h.1


/-- C4 as evaluated at the failing input (code bug): on a queue whose metadata
is {"a": 1}, update_queue with metadata_update {"b": 2} persists metadata None
(Python's dict.update returns None and the source assigns that return value),
while the spec-intended shallow merge would be {"a": 1, "b": 2}; name and
password keep their values and last_modified is bumped. -/
theorem C4_update_queue_metadata_evaluation :
    update_queue C1db "q" none none (some [("b", Value.int 2)]) 50 =
      .ok (true, { C1db with
        queues := [{ sampleQueue with metadata := none, last_modified := 50 }] }) ∧
    sampleQueue.metadata = some [("a", Value.int 1)] ∧
    dictMerge [("a", Value.int 1)] [("b", Value.int 2)] =
      [("a", Value.int 1), ("b", Value.int 2)] ∧
    (none : Option (List (String × Value))) ≠
      some (dictMerge [("a", Value.int 1)] [("b", Value.int 2)]) := by
  exact ⟨rfl, rfl, rfl, fun h => Option.noConfusion h⟩

/-- Counterexample for C7: arg_match with required {model: {name: None}}
returns false against provided args.model (and against the whole args
document), because the extra key lr fails the equal-key-set check — the claim
asserts this call returns true. -/
theorem C7_arg_match_counterexample :
    arg_match (.obj [("model", .obj [("name", .null)])])
      (.obj [("name", .str "x"), ("lr", .float "0.1")]) = false ∧
    arg_match (.obj [("model", .obj [("name", .null)])])
      (.obj [("model", .obj [("name", .str "x"), ("lr", .float "0.1")])]) = false := by
  exact ⟨rfl, rfl⟩

/-- C7 as amended: both arg_match calls of the scenario return false — the
first because lr is an extra key at the compared level ("no more, no less"),
the second because size is missing and name and lr are extra. -/
theorem C7_arg_match_amended :
    arg_match (.obj [("model", .obj [("name", .null)])])
      (.obj [("name", .str "x"), ("lr", .float "0.1")]) = false ∧
    arg_match (.obj [("model", .obj [("size", .null)])])
      (.obj [("name", .str "x"), ("lr", .float "0.1")]) = false := by
  exact ⟨rfl, rfl⟩

theorem removeFirst_no_id_match {wid qid : String} :
    ∀ {l : List Worker}, (l.map (fun w => w._id)).Nodup →
      ∀ w' ∈ removeFirst (fun w => w._id == wid && w.queue_id == qid) l,
        (w'._id == wid && w'.queue_id == qid) = false := by
  intro l
  induction l with
  | nil => intro _ w' h; cases h
  | cons x rest ih =>
    intro hnd w' hw'
    rw [List.map_cons, List.nodup_cons] at hnd
    by_cases hpx : (x._id == wid && x.queue_id == qid) = true
    · simp only [removeFirst, hpx, if_true] at hw'
      cases hfin : (w'._id == wid && w'.queue_id == qid)
      · rfl
      · exfalso
        have hx : x._id = wid := by
          have := (Bool.and_eq_true _ _).mp hpx
          exact beq_iff_eq.mp this.1
        have hwid : w'._id = wid := by
          have := (Bool.and_eq_true _ _).mp hfin
          exact beq_iff_eq.mp this.1
        apply hnd.1
        rw [hx, ← hwid]
        exact List.mem_map_of_mem _ hw'
    · rw [Bool.not_eq_true] at hpx
      simp only [removeFirst, hpx, Bool.false_eq_true, if_false] at hw'
      rcases List.mem_cons.mp hw' with rfl | hw'
      · exact hpx
      · exact ih hnd.2 w' hw'

/-- C9: delete_worker with cascade_update deletes exactly the one matching
worker record and rewrites the task collection pointwise: every task of the
queue bound to the worker gets worker_id null and last_modified = now, and
every other field of every task — in particular status, retries, start_time
and last_heartbeat — is unchanged; non-matching tasks are untouched. -/
theorem C9_delete_worker_cascade (db : DB) (qn wid : String) (now : Int) (queue : Queue)
    (hq : db.queues.find? (fun x => x.queue_name == qn) = some queue)
    (hw : db.workers.any (fun w => w._id == wid && w.queue_id == queue._id) = true)
    (hids : (db.workers.map (fun w => w._id)).Nodup) :
    ∃ db', delete_worker db qn wid true now = .ok (true, db') ∧
      db'.queues = db.queues ∧
      (∀ w ∈ db'.workers, w ∈ db.workers) ∧
      db'.workers.length + 1 = db.workers.length ∧
      (∀ w ∈ db'.workers, (w._id == wid && w.queue_id == queue._id) = false) ∧
      db'.tasks = db.tasks.map (fun t =>
        if t.queue_id == queue._id && t.worker_id == some wid then
          { t with worker_id := none, last_modified := now } else t) ∧
      (∀ t ∈ db.tasks,
        ((t.queue_id == queue._id && t.worker_id == some wid) = true →
          ({ t with worker_id := none, last_modified := now } : Task) ∈ db'.tasks ∧
          ({ t with worker_id := none, last_modified := now } : Task).status = t.status ∧
          ({ t with worker_id := none, last_modified := now } : Task).retries = t.retries ∧
          ({ t with worker_id := none, last_modified := now } : Task).start_time = t.start_time ∧
          ({ t with worker_id := none, last_modified := now } : Task).last_heartbeat = t.last_heartbeat) ∧
        ((t.queue_id == queue._id && t.worker_id == some wid) = false →
          t ∈ db'.tasks)) := by
  have hred : delete_worker db qn wid true now =
      .ok (true, { db with
        workers := removeFirst (fun w => w._id == wid && w.queue_id == queue._id) db.workers,
        tasks := db.tasks.map (fun t =>
          if t.queue_id == queue._id && t.worker_id == some wid then
            { t with worker_id := none, last_modified := now } else t) }) := by
    simp only [delete_worker, hq, hw, Bool.not_true, Bool.false_eq_true, if_false, if_true]
  refine ⟨_, hred, rfl, ?_, ?_, ?_, rfl, ?_⟩
  · exact fun w hw' => mem_removeFirst hw'
  · exact removeFirst_length hw
  · exact fun w' hw' => removeFirst_no_id_match hids w' hw'
  · intro t ht
    constructor
    · intro hm
      refine ⟨?_, rfl, rfl, rfl, rfl⟩
      have := List.mem_map_of_mem (fun t =>
        if t.queue_id == queue._id && t.worker_id == some wid then
          { t with worker_id := none, last_modified := now } else t) ht
      simp only [hm, if_true] at this
      exact this
    · intro hm
      have := List.mem_map_of_mem (fun t =>
        if t.queue_id == queue._id && t.worker_id == some wid then
          { t with worker_id := none, last_modified := now } else t) ht
      simp only [hm, Bool.false_eq_true, if_false] at this
      exact this

/-- Witness for C9: deleting worker W1 at time 7 removes it and patches its
RUNNING task to a null worker_id with last_modified 7. -/
theorem C9_delete_worker_cascade_witness :
    (C9db.queues.find? (fun x => x.queue_name == "q") = some sampleQueue) ∧
    (C9db.workers.any (fun w => w._id == "W1" && w.queue_id == sampleQueue._id) = true) ∧
    (C9db.workers.map (fun w => w._id)).Nodup ∧
    ∃ db', delete_worker C9db "q" "W1" true 7 = .ok (true, db') ∧
      (∀ w ∈ db'.workers, (w._id == "W1" && w.queue_id == sampleQueue._id) = false) ∧
      ({ C9task with worker_id := none, last_modified := 7 } : Task) ∈ db'.tasks := by
  refine ⟨rfl, rfl, by decide, ?_⟩
  obtain ⟨db', hok, hqueues, hsub, hlen, hnomatch, htasks, hframe⟩ :=
    C9_delete_worker_cascade C9db "q" "W1" 7 sampleQueue rfl rfl (by decide)
  refine ⟨db', hok, hnomatch, ?_⟩
  exact ((hframe C9task (List.mem_cons_self _ _)).1 rfl).1

theorem timedOutQuery_none (now : Int) (t : Task)
    (hhb : t.heartbeat_timeout = none) (htt : t.task_timeout = none) :
    timedOutQuery now t = false := by
  simp [timedOutQuery, hhb, htt]

theorem timeoutStep_foldl (now : Int) (t : Task) :
    ∀ (sel : List Task) (acc : List String × DB),
      (∀ s ∈ sel, s._id ≠ t._id) → t ∈ acc.2.tasks → t._id ∉ acc.1 →
      t ∈ (sel.foldl (timeoutStep now) acc).2.tasks ∧
      t._id ∉ (sel.foldl (timeoutStep now) acc).1 := by
  intro sel
  induction sel with
  | nil => intro acc _ h2 h3; exact ⟨h2, h3⟩
  | cons s rest ih =>
    intro acc hall h2 h3
    rw [List.foldl_cons]
    apply ih
    · exact fun s' hs' => hall s' (List.mem_cons_of_mem _ hs')
    · show t ∈ updateFirst (fun x => x._id == s._id)
        (fun x => applySet x (timeoutUpdate s now)) acc.2.tasks
      apply mem_updateFirst_of_pred_false h2
      rw [beq_eq_false_iff_ne]
      exact fun he => (hall s (List.mem_cons_self _ _)) he.symm
    · show t._id ∉ (if updateFirstModified (fun x => x._id == s._id)
        (fun x => applySet x (timeoutUpdate s now)) Task.beq acc.2.tasks
        then acc.1 ++ [s._id] else acc.1)
      split
      · intro hmem
        rcases List.mem_append.mp hmem with h | h
        · exact h3 h
        · exact (hall s (List.mem_cons_self _ _)) (List.mem_singleton.mp h).symm
      · exact h3

/-- C8: a RUNNING task whose heartbeat_timeout and task_timeout are both null
never satisfies the sweeper's selection query, survives a whole run of
handle_timeouts unchanged, and its id is never reported as transitioned —
regardless of how old start_time and last_heartbeat are. -/
theorem C8_sweeper_null_timeouts (db : DB) (now : Int) (t : Task)
    (ht : t ∈ db.tasks) (hhb : t.heartbeat_timeout = none) (htt : t.task_timeout = none)
    (hids : (db.tasks.map (fun x => x._id)).Nodup) :
    timedOutQuery now t = false ∧
    t ∈ (handle_timeouts db now).2.tasks ∧
    t._id ∉ (handle_timeouts db now).1 := by
  have hfalse := timedOutQuery_none now t hhb htt
  have hall : ∀ s ∈ db.tasks.filter (timedOutQuery now), s._id ≠ t._id := by
    intro s hs
    obtain ⟨hsmem, hstrue⟩ := List.mem_filter.mp hs
    intro he
    have : s = t := nodup_map_inj hids hsmem ht he
    rw [this] at hstrue
    rw [hfalse] at hstrue
    cases hstrue
  have h := timeoutStep_foldl now t (db.tasks.filter (timedOutQuery now)) ([], db)
    hall ht (List.not_mem_nil t._id)
  exact ⟨hfalse, h.1, h.2⟩

/-- Witness for C8: a RUNNING task with null timeouts and timestamps at 0 is
untouched by a sweep at time 1000000. -/
theorem C8_sweeper_null_timeouts_witness :
    C8task ∈ C8db.tasks ∧ C8task.heartbeat_timeout = none ∧ C8task.task_timeout = none ∧
    (C8db.tasks.map (fun x => x._id)).Nodup ∧
    timedOutQuery 1000000 C8task = false ∧
    C8task ∈ (handle_timeouts C8db 1000000).2.tasks ∧
    C8task._id ∉ (handle_timeouts C8db 1000000).1 := by
  have h := C8_sweeper_null_timeouts C8db 1000000 C8task (List.mem_cons_self _ _) rfl rfl (by decide)
  exact ⟨List.mem_cons_self _ _, rfl, rfl, by decide, h.1, h.2.1, h.2.2⟩

theorem sanitizeFields_ok_or_bad (banned : List String) :
    ∀ fs : List (String × Value), (∃ r, sanitizeFields banned fs = .ok r) ∨
      sanitizeFields banned fs = .error .badRequest := by
  intro fs
  induction fs using sanitizeFields.induct banned with
  | case1 => exact Or.inl ⟨[], by simp [sanitizeFields]⟩
  | case2 k v rest h =>
    right
    unfold sanitizeFields
    rw [if_pos h]
  | case3 k rest h fs e hfs ih1 =>
    right
    rcases ih1 with ⟨r, hr⟩ | hbad
    · rw [hfs] at hr; cases hr
    · rw [hfs] at hbad
      injection hbad with hb
      simp [sanitizeFields, h, hfs, hb]
  | case4 k rest h fs rest' hfs e hrest ih2 ih1 =>
    right
    rcases ih1 with ⟨r, hr⟩ | hbad
    · rw [hrest] at hr; cases hr
    · rw [hrest] at hbad
      injection hbad with hb
      simp [sanitizeFields, h, hfs, hrest, hb]
  | case5 k rest h fs r1 hfs r2 hrest ih2 ih1 =>
    left
    exact ⟨(k, .obj r1) :: r2, by simp [sanitizeFields, h, hfs, hrest]⟩
  | case6 k v rest h e hrest hnotobj ih1 =>
    right
    rcases ih1 with ⟨r, hr⟩ | hbad
    · rw [hrest] at hr; cases hr
    · rw [hrest] at hbad
      injection hbad with hb
      cases v with
      | obj gs => exact (hnotobj gs rfl).elim
      | null => simp [sanitizeFields, h, hrest, hb]
      | str s => simp [sanitizeFields, h, hrest, hb]
      | int n => simp [sanitizeFields, h, hrest, hb]
      | float s => simp [sanitizeFields, h, hrest, hb]
  | case7 k v rest h rest' hrest hnotobj ih1 =>
    cases v with
    | obj gs => exact (hnotobj gs rfl).elim
    | null => exact Or.inl ⟨(k, .null) :: rest', by simp [sanitizeFields, h, hrest]⟩
    | str s => exact Or.inl ⟨(k, .str s) :: rest', by simp [sanitizeFields, h, hrest]⟩
    | int n => exact Or.inl ⟨(k, .int n) :: rest', by simp [sanitizeFields, h, hrest]⟩
    | float s => exact Or.inl ⟨(k, .float s) :: rest', by simp [sanitizeFields, h, hrest]⟩

theorem sanitizeFields_ok_not_mentions (banned : List String) :
    ∀ fs : List (String × Value), (∃ r, sanitizeFields banned fs = Except.ok r) →
      ¬ MentionsField banned fs := by
  intro fs
  induction fs using sanitizeFields.induct banned with
  | case1 =>
    rintro _ hm
    cases hm with
    | here hmem _ => cases hmem
    | nested hmem _ => cases hmem
  | case2 k v rest h =>
    rintro ⟨r, hr⟩
    unfold sanitizeFields at hr
    rw [if_pos h] at hr
    exact Except.noConfusion hr
  | case3 k rest h fs e hfs ih1 =>
    rintro ⟨r, hr⟩
    simp [sanitizeFields, h, hfs] at hr
  | case4 k rest h fs rest' hfs e hrest ih2 ih1 =>
    rintro ⟨r, hr⟩
    simp [sanitizeFields, h, hfs, hrest] at hr
  | case5 k rest h fs r1 hfs r2 hrest ih2 ih1 =>
    rintro ⟨r, hr⟩ hm
    cases hm with
    | here hmem hk =>
      rename_i k0 v0
      rcases List.mem_cons.mp hmem with heq | hmem'
      · injection heq with h1 h2
        rw [h1] at hk
        exact h hk
      · exact (ih1 ⟨r2, hrest⟩) (MentionsField.here hmem' hk)
    | nested hmem hm' =>
      rename_i k0 gs
      rcases List.mem_cons.mp hmem with heq | hmem'
      · injection heq with h1 h2
        injection h2 with h3
        rw [h3] at hm'
        exact (ih2 ⟨r1, hfs⟩) hm'
      · exact (ih1 ⟨r2, hrest⟩) (MentionsField.nested hmem' hm')
  | case6 k v rest h e hrest hnotobj ih1 =>
    rintro ⟨r, hr⟩
    cases v with
    | obj gs => exact (hnotobj gs rfl).elim
    | null => simp [sanitizeFields, h, hrest] at hr
    | str s => simp [sanitizeFields, h, hrest] at hr
    | int n => simp [sanitizeFields, h, hrest] at hr
    | float s => simp [sanitizeFields, h, hrest] at hr
  | case7 k v rest h rest' hrest hnotobj ih1 =>
    rintro ⟨r, hr⟩ hm
    cases hm with
    | here hmem hk =>
      rename_i k0 v0
      rcases List.mem_cons.mp hmem with heq | hmem'
      · injection heq with h1 h2
        rw [h1] at hk
        exact h hk
      · exact (ih1 ⟨rest', hrest⟩) (MentionsField.here hmem' hk)
    | nested hmem hm' =>
      rename_i k0 gs
      rcases List.mem_cons.mp hmem with heq | hmem'
      · injection heq with h1 h2
        exact (hnotobj gs h2.symm).elim
      · exact (ih1 ⟨rest', hrest⟩) (MentionsField.nested hmem' hm')

theorem mentions_sanitize_error (banned : List String) (fs : List (String × Value))
    (h : MentionsField banned fs) :
    sanitizeFields banned fs = .error .badRequest := by
  rcases sanitizeFields_ok_or_bad banned fs with hok | hb
  · exact absurd h (sanitizeFields_ok_not_mentions banned fs hok)
  · exact hb

/-- C5: any task_setting_update that mentions a reserved field (_id, queue_id,
created_at, last_modified) at any nesting level makes ResetTaskToPending fail
with BadRequest before any store write, so the task is left unchanged (the
operation never reaches its success branch). -/
theorem C5_reset_honors_sanitizer (db : DB) (qn tid : String) (upd : List (String × Value)) (now : Int)
    (h : MentionsField banned_default upd) :
    reset_task_to_pending db qn tid upd now = .error .badRequest ∧
    ∀ r, reset_task_to_pending db qn tid upd now ≠ .ok r := by
  have he : sanitize_update upd = .error .badRequest :=
    mentions_sanitize_error banned_default upd h
  have hred : reset_task_to_pending db qn tid upd now = .error .badRequest := by
    simp only [reset_task_to_pending, sanitize_update] at he ⊢
    rw [he]
  refine ⟨hred, ?_⟩
  intro r hr
  rw [hred] at hr
  exact Except.noConfusion hr

/-- Witness for C5: an update nesting queue_id inside metadata is rejected. -/
theorem C5_reset_honors_sanitizer_witness :
    MentionsField banned_default [("metadata", Value.obj [("queue_id", Value.int 1)])] ∧
    reset_task_to_pending C1db "q" "A" [("metadata", Value.obj [("queue_id", Value.int 1)])] 9 =
      .error .badRequest := by
  have hm : MentionsField banned_default [("metadata", Value.obj [("queue_id", Value.int 1)])] :=
    .nested (List.mem_cons_self _ _) (.here (List.mem_cons_self _ _) (by decide))
  exact ⟨hm, (C5_reset_honors_sanitizer C1db "q" "A" _ 9 hm).1⟩

end Labtasker
